import Mathlib

/-!
Verification of the gather(1) core (src/gather.go): dependency-closure
expansion and the file-discovery pipeline
(match → dot-file filter → exclude filter → path formatting → duplicate
detection).

Pure functions of the source are translated directly.  External
collaborators (the goutil/gocli package-metadata provider, `path/filepath`
and `os.Getwd`) are modelled from the spec's contracts; each such
definition carries a doc comment starting with `Modelled from the spec:`.
Strings are modelled through their character lists (`String.data`), so
character-level operations stay kernel-computable.
-/

namespace Gather

/-- Package descriptor (spec §3): import path, build directory,
direct import list, standard-library flag.  In the source this is goutil's
package value; only these attributes are observed by gather. -/
structure Package where
  importPath : String
  dir : String
  imports : List String
  std : Bool
deriving DecidableEq

/-! ## Glob patterns

`Modelled from the spec:` shell-style glob semantics of
`path/filepath.Match` (spec §4.4): `*` any run of non-separator
characters, `?` a single non-separator character, `[...]` character
classes (with `^` negation and `lo-hi` ranges, `\` escapes); a malformed
pattern (e.g. unterminated character class) is a GlobError.  A pattern is
first parsed into tokens; parse failure is exactly malformedness. -/

/-- One glob token. -/
inductive GTok where
  | star : GTok
  | any : GTok
  | lit : Char → GTok
  | cls : Bool → List (Char × Char) → GTok
deriving DecidableEq

/-- The error value `path/filepath.ErrBadPattern` carries. -/
def badPattern : String := "syntax error in pattern"

/-- Modelled from the spec: read one (possibly escaped) class character.
A bare `-`, `]` or terminal `\` is malformed. -/
def getEsc : List Char → Except String (Char × List Char)
  | [] => .error badPattern
  | '-' :: _ => .error badPattern
  | ']' :: _ => .error badPattern
  | '\\' :: [] => .error badPattern
  | '\\' :: c :: rest => .ok (c, rest)
  | c :: rest => .ok (c, rest)

/-- Modelled from the spec: parse the body of a `[...]` character class
(after the opening bracket and optional `^`).  The class must contain at
least one range and be terminated by `]`.  `fuel` dominates the number of
characters consumed, so `length + 1` always suffices. -/
def parseClassF (fuel : Nat) (acc : List (Char × Char)) (cs : List Char) :
    Except String (List (Char × Char) × List Char) :=
  match fuel with
  | 0 => .error badPattern
  | fuel + 1 =>
    match cs with
    | [] => .error badPattern
    | ']' :: rest => if acc.isEmpty then .error badPattern else .ok (acc.reverse, rest)
    | cs' =>
      match getEsc cs' with
      | .error e => .error e
      | .ok (lo, cs₁) =>
        match cs₁ with
        | '-' :: cs₂ =>
          match getEsc cs₂ with
          | .error e => .error e
          | .ok (hi, cs₃) => parseClassF fuel ((lo, hi) :: acc) cs₃
        | _ => parseClassF fuel ((lo, lo) :: acc) cs₁

/-- Modelled from the spec: tokenize a glob pattern; `.error` exactly on a
malformed pattern.  `fuel` dominates the number of tokens produced, so
`length + 1` always suffices. -/
def parseToksF (fuel : Nat) (cs : List Char) : Except String (List GTok) :=
  match fuel with
  | 0 => .error badPattern
  | fuel + 1 =>
    match cs with
    | [] => .ok []
    | '*' :: rest =>
      match parseToksF fuel rest with
      | .error e => .error e
      | .ok ts => .ok (GTok.star :: ts)
    | '?' :: rest =>
      match parseToksF fuel rest with
      | .error e => .error e
      | .ok ts => .ok (GTok.any :: ts)
    | '[' :: rest =>
      let (neg, rest₁) :=
        match rest with
        | '^' :: r => (true, r)
        | _ => (false, rest)
      match parseClassF (rest₁.length + 1) [] rest₁ with
      | .error e => .error e
      | .ok (rs, rest₂) =>
        match parseToksF fuel rest₂ with
        | .error e => .error e
        | .ok ts => .ok (GTok.cls neg rs :: ts)
    | '\\' :: [] => .error badPattern
    | '\\' :: c :: rest =>
      match parseToksF fuel rest with
      | .error e => .error e
      | .ok ts => .ok (GTok.lit c :: ts)
    | c :: rest =>
      match parseToksF fuel rest with
      | .error e => .error e
      | .ok ts => .ok (GTok.lit c :: ts)

/-- Modelled from the spec: parse a glob pattern; `.error` exactly on a
malformed pattern (GlobError). -/
def parseGlob (p : String) : Except String (List GTok) :=
  parseToksF (p.data.length + 1) p.data

/-- The suffixes of `s` reachable by letting `*` consume zero or more
non-separator characters (a `*` cannot consume `/`). -/
def starSplits : List Char → List (List Char)
  | [] => [[]]
  | c :: s => (c :: s) :: (if c = '/' then [] else starSplits s)

/-- Modelled from the spec: match a token list against a name.  `*`
matches any run of non-separator characters, `?` one non-separator
character, classes and literals one character; the whole name must be
consumed.  Every recursive call drops one token, so fuel
`tokens + 1` always suffices. -/
def matchToksF (fuel : Nat) : List GTok → List Char → Bool :=
  match fuel with
  | 0 => fun _ _ => false
  | fuel + 1 => fun ts s =>
    match ts, s with
    | [], s => s.isEmpty
    | .star :: ts, s => (starSplits s).any (fun t => matchToksF fuel ts t)
    | .any :: ts, s =>
      match s with
      | [] => false
      | c :: s' => c != '/' && matchToksF fuel ts s'
    | .lit ch :: ts, s =>
      match s with
      | [] => false
      | c :: s' => c == ch && matchToksF fuel ts s'
    | .cls neg rs :: ts, s =>
      match s with
      | [] => false
      | c :: s' =>
        (rs.any (fun r => decide (r.1.toNat ≤ c.toNat) && decide (c.toNat ≤ r.2.toNat)) != neg)
          && matchToksF fuel ts s'

/-- Modelled from the spec: match a token list against a name. -/
def matchToks (ts : List GTok) (s : List Char) : Bool :=
  matchToksF (ts.length + 1) ts s

/-- Modelled from the spec: `path/filepath.Match` — `.ok` with the match
result for a well-formed pattern, `.error` (GlobError) on a malformed
one. -/
def globMatch (pattern name : String) : Except String Bool :=
  match parseGlob pattern with
  | .error e => .error e
  | .ok ts => .ok (matchToks ts name.data)

/-! ## Path helpers (modelled `path/filepath` collaborators) -/

/-- Modelled from the spec: `path/filepath.Base` (unix): final path
component; `""` gives `"."`, all-slashes gives `"/"`; trailing slashes
are ignored. -/
def basename (p : String) : String :=
  if p = "" then "."
  else
    let cs := p.data.reverse.dropWhile (fun c => c = '/')
    if cs.isEmpty then "/"
    else String.mk ((cs.takeWhile (fun c => c != '/')).reverse)

/-- Split a character list on `/`. -/
def splitCompsAux (cur : List Char) : List Char → List (List Char)
  | [] => [cur.reverse]
  | c :: rest => if c = '/' then cur.reverse :: splitCompsAux [] rest else splitCompsAux (c :: cur) rest

/-- The non-empty, non-`.` components of a path. -/
def pathComps (p : String) : List String :=
  ((splitCompsAux [] p.data).map String.mk).filter (fun c => c != "" && c != ".")

/-- Join components with `/`. -/
def joinComps : List String → String
  | [] => ""
  | [c] => c
  | c :: cs => c ++ "/" ++ joinComps cs

/-- Resolve `..` components lexically against a stack of components
(rooted paths drop leading `..`). -/
def cleanComps (rooted : Bool) (acc : List String) : List String → List String
  | [] => acc.reverse
  | c :: cs =>
    if c = ".." then
      match acc with
      | [] => if rooted then cleanComps rooted [] cs else cleanComps rooted [".."] cs
      | a :: acc' =>
        if a = ".." then cleanComps rooted (c :: a :: acc') cs else cleanComps rooted acc' cs
    else cleanComps rooted (c :: acc) cs

/-- Whether the path is absolute (starts with `/`). -/
def isRooted (p : String) : Bool :=
  match p.data with
  | '/' :: _ => true
  | _ => false

/-- Modelled from the spec: `path/filepath.Clean` (unix): shortest
lexically-equivalent path (drops empty and `.` components, resolves `..`,
empty result becomes `.`). -/
def clean (p : String) : String :=
  if p = "" then "."
  else
    let rooted := isRooted p
    let outc := cleanComps rooted [] (pathComps p)
    if rooted then (if outc.isEmpty then "/" else "/" ++ joinComps outc)
    else (if outc.isEmpty then "." else joinComps outc)

/-- Modelled from the spec: `path/filepath.Join` of a directory and an
entry name (empty elements ignored, result cleaned). -/
def joinPath (dir name : String) : String :=
  if dir = "" then clean name else clean (dir ++ "/" ++ name)

/-- Drop the longest common leading run of equal components. -/
def dropCommon : List String → List String → List String × List String
  | a :: as, b :: bs => if a = b then dropCommon as bs else (a :: as, b :: bs)
  | as, bs => (as, bs)

/-- Modelled from the spec: `path/filepath.Rel` — rewrite `target`
relative to `base`, a PathError when the target cannot be expressed
relative to the base (spec §4.6). -/
def filepathRel (base target : String) : Except String String :=
  let b := clean base
  let t := clean target
  if b = t then .ok "."
  else if isRooted b != isRooted t then
    .error ("Rel: can't make " ++ target ++ " relative to " ++ base)
  else
    let (br, tr) := dropCommon (pathComps b) (pathComps t)
    if br.contains ".." then
      .error ("Rel: can't make " ++ target ++ " relative to " ++ base)
    else
      let parts := br.map (fun _ => "..") ++ tr
      if parts.isEmpty then .ok "." else .ok (joinComps parts)

/-! ## File matcher (src/gather.go:105-108) -/

/-- An abstract filesystem snapshot: for each directory, its sorted entry
names, or `none` when the directory does not exist. -/
structure FS where
  entries : String → Option (List String)

/-- Modelled from the spec: `path/filepath.Glob` restricted to the
matcher's contract (spec §4.4): entries of one directory (non-recursive)
whose name matches the pattern; a non-existent directory yields an empty
sequence and no error; a malformed pattern is a GlobError. -/
def globFS (fs : FS) (dir pattern : String) : Except String (List String) :=
  match parseGlob pattern with
  | .error e => .error e
  | .ok ts =>
    .ok (match fs.entries dir with
         | none => []
         | some names => (names.filter (fun n => matchToks ts n.data)).map (fun n => joinPath dir n))

/-- src/gather.go:105-108 — `match(dir, pattern)` delegates to
`filepath.Glob(filepath.Join(dir, pattern))`; the Glob half is the
modelled `globFS`. (`match` is a Lean keyword, hence the name.) -/
def matchFiles (fs : FS) (dir pattern : String) : Except String (List String) :=
  globFS fs dir pattern

/-! ## Filter (src/gather.go:110-129) -/

/-- src/gather.go:116-127 — the loop of `filter`: drop every path whose
basename matches `exclude`; a Match error aborts. -/
def filterLoop (exclude : String) : List String → Except String (List String)
  | [] => .ok []
  | p :: ps =>
    match globMatch exclude (basename p) with
    | .error e => .error e
    | .ok skip =>
      match filterLoop exclude ps with
      | .error e => .error e
      | .ok out => .ok (if skip then out else p :: out)

/-- src/gather.go:110-129 — `filter`: with the empty exclude glob, pass
the input through unchanged; otherwise run the loop. -/
def filter (paths : List String) (exclude : String) : Except String (List String) :=
  if exclude = "" then .ok paths else filterLoop exclude paths

/-- The match result of a well-formed glob against a name (`false` when
the pattern is malformed); used to state the pure-filter semantics. -/
def matchesGlob (g s : String) : Bool :=
  match globMatch g s with
  | .ok b => b
  | .error _ => false

/-- Spec §4.5 stage 1 as the claims state it: unless dot files are
included, remove every entry whose basename matches the dotfile glob
`".*"`. -/
def dotExclude (dot : Bool) (ms : List String) : List String :=
  if dot then ms else ms.filter (fun p => !(matchesGlob ".*" (basename p)))

/-- Spec §4.5 stage 2 as the claims state it: remove every entry whose
basename matches the caller-supplied glob, if one was given. -/
def userExclude (excl : String) (ms : List String) : List String :=
  if excl = "" then ms else ms.filter (fun p => !(matchesGlob excl (basename p)))

/-- src/gather.go:234-246 — the two exclusion stages as wired in `main`:
dot-file filtering (unless `-.` was given) and then the `-exclude`
filtering, each fatal on error. -/
def stageFilters (dot : Bool) (exclude : String) (ms : List String) :
    Except String (List String) :=
  match (if dot then Except.ok ms else filter ms ".*") with
  | .error e => .error e
  | .ok ms₁ => filter ms₁ exclude

/-! ## Path formatting (src/gather.go:131-169) -/

/-- src/gather.go:131 — `type pathFormatter func(string) (string, error)`. -/
def pathFormatter : Type := String → Except String String

/-- src/gather.go:133-135 — `identity`. -/
def identity (s : String) : Except String String := .ok s

/-- src/gather.go:137-141 — `mkRel` closes over the base resolved at
construction time. -/
def mkRel (base : String) : pathFormatter := fun s => filepathRel base s

/-- src/gather.go:143-157 — `mkFormatter`: empty base gives `identity`;
otherwise the base is cleaned, and a base cleaning to `.` is replaced by
the working directory (`os.Getwd`, modelled as the `getwd` argument)
resolved once, here, at construction time. -/
def mkFormatter (getwd : Except String String) (rel : String) : Except String pathFormatter :=
  if rel = "" then .ok identity
  else
    let rel' := clean rel
    if rel' = "." then
      match getwd with
      | .error e => .error e
      | .ok wd => .ok (mkRel wd)
    else .ok (mkRel rel')

/-- src/gather.go:159-169 — `format`: apply the formatter to every path,
fatal on the first error. -/
def formatLoop (f : pathFormatter) : List String → Except String (List String)
  | [] => .ok []
  | p :: ps =>
    match f p with
    | .error e => .error e
    | .ok s =>
      match formatLoop f ps with
      | .error e => .error e
      | .ok out => .ok (s :: out)

/-- src/gather.go:159-169 — `format`. -/
def format (paths : List String) (f : pathFormatter) : Except String (List String) :=
  formatLoop f paths

/-! ## Duplicate registry (src/gather.go:171-180) -/

/-- src/gather.go:171 — `type dupcheck map[string]string`, basename →
first full path, as an association list with unique keys. -/
abbrev dupcheck : Type := List (String × String)

/-- Lookup in the registry (the map read `o, ok := d[b]`). -/
def dupFind : dupcheck → String → Option String
  | [], _ => none
  | (k, v) :: d, b => if k = b then some v else dupFind d b

/-- src/gather.go:176 — the DuplicateError message text. -/
def pushMsg (b p o : String) : String :=
  "duplicate file " ++ b ++ " found at\n\t" ++ p ++ "\npreviously\n\t" ++ o

/-- src/gather.go:173-180 — `dupcheck.push`: on a basename already
registered, return the registry unchanged together with the
DuplicateError; otherwise register the path and succeed. -/
def push (d : dupcheck) (p : String) : dupcheck × Option String :=
  match dupFind d (basename p) with
  | some o => (d, some (pushMsg (basename p) p o))
  | none => (d ++ [(basename p, p)], none)

/-- src/gather.go:254-263 — the emission loop of `main`: for each
formatted path, when `-fail-on-dup` is set push it into the registry and
abort on a DuplicateError before printing it; otherwise print it.
Returns the final registry, the printed paths in order, and the fatal
error if one occurred. -/
def emitLoop (faildup : Bool) (d : dupcheck) : List String → dupcheck × List String × Option String
  | [] => (d, [], none)
  | m :: ms =>
    if faildup then
      match push d m with
      | (d', some e) => (d', [], some e)
      | (d', none) =>
        let r := emitLoop faildup d' ms
        (r.1, m :: r.2.1, r.2.2)
    else
      let r := emitLoop faildup d ms
      (r.1, m :: r.2.1, r.2.2)

/-! ## Argument handling and package resolution (src/gather.go:83-90, 189-193) -/

/-- src/gather.go:189-193 — `pat := "*"`; when arguments are present the
first is the pattern and the rest are the import specifiers. -/
def parseArgs (args : List String) : String × List String :=
  match args with
  | [] => ("*", [])
  | a :: rest => (a, rest)

/-- Modelled from the spec: the Package Resolver (`gocli.Import` behind
src/gather.go:83-90) — an empty specifier list means the package in the
current directory (spec §4.1, §9). -/
def resolvePackages (cwdPkg : Package) (resolve : String → List Package)
    (specs : List String) : List Package :=
  if specs.isEmpty then [cwdPkg] else specs.foldr (fun s acc => resolve s ++ acc) []

/-! ## Closure expansion (src/gather.go:92-103) -/

/-- src/gather.go:94-100 — the loop of `importDeps` over the provider `O`
(goutil's `(*Package).ImportDeps`, the external deep-resolution call):
for each package, query its transitive dependency set and append it to
the accumulating `deps`; fail fast on a lookup error.  Alongside the
result, the instrumented run records, for every dependency-lookup call
made, the accumulated `deps` at the moment of the call and the import
path queried. -/
def depsRun (O : Package → Except String (List Package)) (deps : List Package) :
    List Package → List (List Package × String) × Except String (List Package)
  | [] => ([], .ok deps)
  | p :: ps =>
    match O p with
    | .error e => ([(deps, p.importPath)], .error e)
    | .ok ds =>
      let r := depsRun O (deps ++ ds) ps
      ((deps, p.importPath) :: r.1, r.2)

/-- The dependency list the provider returns for `p` (empty on a lookup
error); the successful runs of `depsRun` accumulate exactly these. -/
def odeps (O : Package → Except String (List Package)) (p : Package) : List Package :=
  match O p with
  | .ok ds => ds
  | .error _ => []

/-- All dependency lists of `ps` concatenated in order. -/
def allDeps (O : Package → Except String (List Package)) (ps : List Package) : List Package :=
  ps.foldr (fun p acc => odeps O p ++ acc) []

/-- Modelled from the spec: goutil's `Packages.Uniq` — duplicates removed
by value equality on import path, keeping first occurrences (spec §4.2,
§3: stable order, unique keys); `seen` carries the keys already kept. -/
def uniqGo (seen : List String) : List Package → List Package
  | [] => []
  | p :: ps =>
    if p.importPath ∈ seen then uniqGo seen ps
    else p :: uniqGo (p.importPath :: seen) ps

/-- Modelled from the spec: goutil's `Packages.Uniq`. -/
def uniqPackages (ps : List Package) : List Package := uniqGo [] ps

/-- src/gather.go:92-103 — `importDeps`: query every input package,
append the results, and return `append(ps, deps...).Uniq()`. -/
def importDeps (O : Package → Except String (List Package)) (ps : List Package) :
    Except String (List Package) :=
  match (depsRun O [] ps).2 with
  | .error e => .error e
  | .ok deps => .ok (uniqPackages (ps ++ deps))

/-- Claim C2's property as stated: no dependency-lookup call ever targets
an import path already present in the accumulating union at the moment of
the call. -/
def noRequery (O : Package → Except String (List Package)) (ps : List Package) : Prop :=
  ∀ s ∈ (depsRun O [] ps).1, s.2 ∉ s.1.map Package.importPath

/-- The provider contract of spec §4.2: the external call performs deep
(transitive) resolution, so a package appearing in a result set can
itself be resolved, and its dependency set introduces no import path not
already in that result set. -/
def ProviderTransitive (O : Package → Except String (List Package)) : Prop :=
  ∀ a ds, O a = .ok ds →
    ∀ q ∈ ds, ∃ es, O q = .ok es ∧ ∀ e ∈ es, e.importPath ∈ ds.map Package.importPath

/-! ## Miscellany for the claims -/

/-- `sub` occurs contiguously inside `s`. -/
def strContains (s sub : String) : Prop := ∃ l r, s = l ++ (sub ++ r)

/-- `.ok`-ness of an `Except`, as a Boolean. -/
def exceptOk {α : Type} : Except String α → Bool
  | .ok _ => true
  | .error _ => false

/-- Concrete package: `a` imports `b`. -/
def pkgA : Package := ⟨"a", "/src/a", ["b"], false⟩

/-- Concrete package: `b`, no imports. -/
def pkgB : Package := ⟨"b", "/src/b", [], false⟩

/-- Concrete provider: `a`'s transitive dependency set is `{b}`, every
other package's is empty. -/
def provider0 : Package → Except String (List Package) :=
  fun p => .ok (if p.importPath = "a" then [pkgB] else [])

/-- Concrete filesystem: one directory `/d` with two entries. -/
def fsW : FS := ⟨fun d => if d = "/d" then some [".hidden", "a.css"] else none⟩

/-! ## Theorems -/

/-- C1: With duplicate detection enabled, for any two formatted paths with
the same basename pushed in order into a fresh Duplicate Registry, the
first push succeeds and records the path, and the second push fails with a
DuplicateError whose message contains the basename, the new path, and the
previously registered path; with detection disabled, every path is emitted
without any registration or check. -/
theorem dup_detection (p₁ p₂ : String) (h : basename p₂ = basename p₁) :
    push [] p₁ = ([(basename p₁, p₁)], none)
    ∧ push [(basename p₁, p₁)] p₂
        = ([(basename p₁, p₁)], some (pushMsg (basename p₂) p₂ p₁))
    ∧ strContains (pushMsg (basename p₂) p₂ p₁) (basename p₂)
    ∧ strContains (pushMsg (basename p₂) p₂ p₁) p₂
    ∧ strContains (pushMsg (basename p₂) p₂ p₁) p₁
    ∧ ∀ d ms, emitLoop false d ms = (d, ms, none) := by
  refine ⟨?_, ?_, ?_, ?_, ?_, ?_⟩
  · simp [push, dupFind]
  · simp [push, dupFind, h]
  · exact ⟨"duplicate file ", " found at\n\t" ++ (p₂ ++ ("\npreviously\n\t" ++ p₁)),
      by simp [pushMsg, String.append_assoc]⟩
  · exact ⟨"duplicate file " ++ basename p₂ ++ " found at\n\t",
      "\npreviously\n\t" ++ p₁, by simp [pushMsg, String.append_assoc]⟩
  · exact ⟨"duplicate file " ++ basename p₂ ++ " found at\n\t" ++ p₂ ++ "\npreviously\n\t",
      "", by simp [pushMsg, String.append_assoc, String.append_empty]⟩
  · intro d ms
    induction ms generalizing d with
    | nil => rfl
    | cons m ms ih => simp [emitLoop, ih]

/-- Witness for C1 at the spec's own example paths. -/
theorem dup_detection_witness :
    push [] "/a/x.txt" = ([(basename "/a/x.txt", "/a/x.txt")], none)
    ∧ push [(basename "/a/x.txt", "/a/x.txt")] "/b/x.txt"
        = ([(basename "/a/x.txt", "/a/x.txt")],
           some (pushMsg (basename "/b/x.txt") "/b/x.txt" "/a/x.txt"))
    ∧ emitLoop false [] ["/q/a", "/q/b"] = ([], ["/q/a", "/q/b"], none) := by
  have h := dup_detection "/a/x.txt" "/b/x.txt" rfl
  exact ⟨h.1, h.2.1, h.2.2.2.2.2 [] ["/q/a", "/q/b"]⟩

/-- C10: A failed push into the Duplicate Registry is atomic: when push
returns a DuplicateError because the basename is already registered, the
registry is left unchanged — in particular the previously registered path
for that basename is not overwritten by the new path. -/
theorem push_atomic (d : dupcheck) (p o : String) (h : dupFind d (basename p) = some o) :
    push d p = (d, some (pushMsg (basename p) p o))
    ∧ dupFind (push d p).1 (basename p) = some o := by
  have hp : push d p = (d, some (pushMsg (basename p) p o)) := by unfold push; rw [h]
  exact ⟨hp, by rw [hp]; exact h⟩

/-- Witness for C10: a colliding push leaves the registry intact. -/
theorem push_atomic_witness :
    push [("x.txt", "/a/x.txt")] "/b/x.txt"
      = ([("x.txt", "/a/x.txt")], some (pushMsg (basename "/b/x.txt") "/b/x.txt" "/a/x.txt"))
    ∧ dupFind (push [("x.txt", "/a/x.txt")] "/b/x.txt").1 (basename "/b/x.txt")
      = some "/a/x.txt" :=
  push_atomic [("x.txt", "/a/x.txt")] "/b/x.txt" "/a/x.txt" rfl

/-- C7: For every argument list: when at least one argument is present,
the first argument is taken as the glob pattern and the remaining
arguments are the import specifiers; when no arguments are given at all,
the pattern defaults to the match-everything glob `"*"` and the implicit
root is the current directory. -/
theorem args_pattern (a : String) (rest : List String) (cwdPkg : Package)
    (resolve : String → List Package) :
    parseArgs (a :: rest) = (a, rest) ∧ parseArgs [] = ("*", [])
    ∧ resolvePackages cwdPkg resolve [] = [cwdPkg] :=
  ⟨rfl, rfl, rfl⟩

/-- C4: For every candidate path, the Path Formatter with an empty base
returns the path unchanged (identity); when the base is the literal value
`"."`, the base is resolved to the process's current working directory
exactly once at formatter-construction time (the returned formatter is
the closure over that resolved value), so every path in the run is
formatted relative to that same resolved directory. -/
theorem formatter_base (getwd : Except String String) (wd p : String) :
    (mkFormatter getwd "" = .ok identity ∧ identity p = .ok p)
    ∧ (getwd = .ok wd →
        mkFormatter getwd "." = .ok (mkRel wd) ∧ mkRel wd p = filepathRel wd p) := by
  refine ⟨⟨rfl, rfl⟩, fun h => ⟨?_, rfl⟩⟩
  subst h
  rfl

/-- Witness for C4 at a concrete working directory. -/
theorem formatter_base_witness :
    mkFormatter (.ok "/home/u") "." = .ok (mkRel "/home/u")
    ∧ mkRel "/home/u" "/home/u/f.css" = filepathRel "/home/u" "/home/u/f.css"
    ∧ mkFormatter (.ok "/home/u") "" = .ok identity := by
  have h := formatter_base (.ok "/home/u") "/home/u" "/home/u/f.css"
  exact ⟨(h.2 rfl).1, (h.2 rfl).2, h.1.1⟩

/-- C5: For every directory path and every glob pattern, the File Matcher
returns only filesystem entries directly within that directory
(non-recursive, one level only) whose name matches the pattern under
shell-style glob semantics. -/
theorem matchFiles_one_level (fs : FS) (dir pat : String) (out : List String)
    (h : matchFiles fs dir pat = .ok out) (f : String) (hf : f ∈ out) :
    ∃ n, n ∈ (fs.entries dir).getD [] ∧ globMatch pat n = .ok true ∧ f = joinPath dir n := by
  unfold matchFiles globFS at h
  cases hp : parseGlob pat with
  | error e => rw [hp] at h; exact absurd h (by simp)
  | ok ts =>
    rw [hp] at h
    have hout := Except.ok.inj h
    cases he : fs.entries dir with
    | none =>
      rw [he] at hout
      subst hout
      exact absurd hf (List.not_mem_nil f)
    | some names =>
      rw [he] at hout
      subst hout
      rcases List.mem_map.mp hf with ⟨n, hn, rfl⟩
      rcases List.mem_filter.mp hn with ⟨hnames, hmatch⟩
      exact ⟨n, by simp [he, hnames], by simp [globMatch, hp, hmatch], rfl⟩

/-- Witness for C5 on the concrete filesystem. -/
theorem matchFiles_one_level_witness :
    ∃ n, n ∈ (fsW.entries "/d").getD [] ∧ globMatch "*.css" n = .ok true
      ∧ "/d/a.css" = joinPath "/d" n :=
  matchFiles_one_level fsW "/d" "*.css" ["/d/a.css"] rfl "/d/a.css" (by simp)

/-- C6: For every well-formed glob pattern, matching in a directory that
does not exist yields an empty sequence and no error (the run does not
fail); the matcher fails with a GlobError only on a malformed pattern. -/
theorem matcher_errors (fs : FS) (dir pat : String) :
    (exceptOk (parseGlob pat) = true → fs.entries dir = none → matchFiles fs dir pat = .ok [])
    ∧ (∀ e, matchFiles fs dir pat = .error e → exceptOk (parseGlob pat) = false) := by
  constructor
  · intro h1 h2
    unfold matchFiles globFS
    cases hp : parseGlob pat with
    | error e => rw [hp] at h1; exact absurd h1 (by simp [exceptOk])
    | ok ts => rw [h2]
  · intro e he
    unfold matchFiles globFS at he
    cases hp : parseGlob pat with
    | error e' => simp [exceptOk]
    | ok ts => rw [hp] at he; exact absurd he (by simp)

/-- Witness for C6: a vanished directory is not fatal; the error case only
arises from a malformed pattern. -/
theorem matcher_errors_witness :
    matchFiles fsW "/gone" "*" = .ok [] ∧ exceptOk (parseGlob "[") = false :=
  ⟨(matcher_errors fsW "/gone" "*").1 rfl rfl,
   (matcher_errors fsW "/d" "[").2 badPattern rfl⟩

/-- C9: For every input path sequence and every exclusion glob, the
filter's output is a subsequence of its input: every retained path
appears in the input, no path is duplicated or introduced, and the
relative order of retained paths equals their relative order in the
input. -/
theorem filter_sublist (g : String) (ms out : List String) (h : filter ms g = .ok out) :
    List.Sublist out ms := by
  unfold filter at h
  by_cases hg : g = ""
  · rw [if_pos hg] at h
    rw [← Except.ok.inj h]
  · rw [if_neg hg] at h
    induction ms generalizing out with
    | nil =>
      rw [show filterLoop g [] = .ok [] from rfl] at h
      rw [← Except.ok.inj h]
    | cons p ps ih =>
      simp only [filterLoop] at h
      cases hm : globMatch g (basename p) with
      | error e => rw [hm] at h; exact absurd h (by simp)
      | ok skip =>
        rw [hm] at h
        cases hl : filterLoop g ps with
        | error e => rw [hl] at h; exact absurd h (by simp)
        | ok out' =>
          rw [hl] at h
          have hout := Except.ok.inj h
          have hsub := ih out' hl
          cases skip with
          | true =>
            rw [if_pos rfl] at hout
            rw [← hout]
            exact hsub.cons p
          | false =>
            rw [if_neg Bool.false_ne_true] at hout
            rw [← hout]
            exact hsub.cons₂ p

/-- Witness for C9 on a concrete run of the dot-file exclusion. -/
theorem filter_sublist_witness : List.Sublist ["/a/y"] ["/a/.x", "/a/y"] :=
  filter_sublist ".*" ["/a/.x", "/a/y"] ["/a/y"] rfl

/-- `Match` on a well-formed pattern never errors and returns the token
match. -/
theorem globMatch_parsed (g : String) (ts : List GTok) (h : parseGlob g = .ok ts)
    (s : String) : globMatch g s = .ok (matchToks ts s.data) := by
  unfold globMatch
  rw [h]

/-- `matchesGlob` agrees with the token match on well-formed patterns. -/
theorem matchesGlob_parsed (g : String) (ts : List GTok) (h : parseGlob g = .ok ts)
    (s : String) : matchesGlob g s = matchToks ts s.data := by
  unfold matchesGlob
  rw [globMatch_parsed g ts h s]

/-- On a well-formed pattern the filter loop is the pure basename
filter. -/
theorem filterLoop_parsed (g : String) (ts : List GTok) (h : parseGlob g = .ok ts) :
    ∀ ms, filterLoop g ms = .ok (ms.filter (fun p => !(matchToks ts (basename p).data))) := by
  intro ms
  induction ms with
  | nil => rfl
  | cons p ps ih =>
    simp only [filterLoop]
    rw [globMatch_parsed g ts h (basename p), ih]
    by_cases hm : matchToks ts (basename p).data
    · simp [hm, List.filter_cons]
    · simp [hm, List.filter_cons]

/-- On a well-formed non-empty pattern `filter` is the pure basename
filter. -/
theorem filter_parsed (g : String) (ts : List GTok) (h : parseGlob g = .ok ts)
    (hg : g ≠ "") (ms : List String) :
    filter ms g = .ok (ms.filter (fun p => !(matchToks ts (basename p).data))) := by
  unfold filter
  rw [if_neg hg]
  exact filterLoop_parsed g ts h ms

/-- C3: For every sequence of candidate paths produced by the matcher, the
exclusion stages are applied in the fixed order: first dot-file exclusion
(removing entries whose basename matches the dotfile glob, unless dot
files are included), then user-exclusion (removing entries whose basename
matches the caller-supplied glob, if one was given); the result equals
applying the two basename filters in that order. -/
theorem stage_order (dot : Bool) (excl : String) (ms : List String)
    (hex : excl = "" ∨ ∃ ts, parseGlob excl = .ok ts) :
    stageFilters dot excl ms = .ok (userExclude excl (dotExclude dot ms)) := by
  have hdot : parseGlob ".*" = .ok [GTok.lit '.', GTok.star] := rfl
  have stage1 : (if dot then Except.ok ms else filter ms ".*") = .ok (dotExclude dot ms) := by
    cases dot with
    | true => simp [dotExclude]
    | false =>
      rw [if_neg Bool.false_ne_true]
      rw [filter_parsed ".*" _ hdot (by decide) ms]
      unfold dotExclude
      rw [if_neg Bool.false_ne_true]
      congr 1
  unfold stageFilters
  rw [stage1]
  show filter (dotExclude dot ms) excl = .ok (userExclude excl (dotExclude dot ms))
  by_cases hemp : excl = ""
  · subst hemp
    simp [filter, userExclude]
  · rcases hex with hex | ⟨ts, hts⟩
    · exact absurd hex hemp
    · rw [filter_parsed excl ts hts hemp (dotExclude dot ms)]
      unfold userExclude
      rw [if_neg hemp]
      congr 1
      apply List.filter_congr
      intro p _
      rw [matchesGlob_parsed excl ts hts]

/-- Witness for C3 on a concrete candidate list. -/
theorem stage_order_witness :
    stageFilters false "*.css" ["/d/.h.css", "/d/a.css", "/d/b.txt"]
      = .ok (userExclude "*.css" (dotExclude false ["/d/.h.css", "/d/a.css", "/d/b.txt"])) :=
  stage_order false "*.css" ["/d/.h.css", "/d/a.css", "/d/b.txt"]
    (Or.inr ⟨[GTok.star, GTok.lit '.', GTok.lit 'c', GTok.lit 's', GTok.lit 's'], rfl⟩)

/-- Unfolding `allDeps` on a cons cell. -/
theorem allDeps_cons (O : Package → Except String (List Package)) (p : Package)
    (ps : List Package) : allDeps O (p :: ps) = odeps O p ++ allDeps O ps := rfl

/-- Membership in the concatenated dependency lists. -/
theorem allDeps_mem (O : Package → Except String (List Package)) (ps : List Package)
    (e : Package) : e ∈ allDeps O ps ↔ ∃ p ∈ ps, e ∈ odeps O p := by
  induction ps with
  | nil => simp [allDeps]
  | cons p ps ih =>
    rw [allDeps_cons, List.mem_append, ih]
    constructor
    · rintro (h | ⟨q, hq, he⟩)
      · exact ⟨p, List.mem_cons_self _ _, h⟩
      · exact ⟨q, List.mem_cons_of_mem _ hq, he⟩
    · rintro ⟨q, hq, he⟩
      rcases List.mem_cons.mp hq with rfl | hq'
      · exact Or.inl he
      · exact Or.inr ⟨q, hq', he⟩

/-- `uniqGo` only keeps elements of its input. -/
theorem uniqGo_mem (seen : List String) (l : List Package) (a : Package)
    (h : a ∈ uniqGo seen l) : a ∈ l := by
  induction l generalizing seen with
  | nil => simp [uniqGo] at h
  | cons p ps ih =>
    simp only [uniqGo] at h
    by_cases hp : p.importPath ∈ seen
    · rw [if_pos hp] at h
      exact List.mem_cons_of_mem p (ih seen h)
    · rw [if_neg hp] at h
      rcases List.mem_cons.mp h with rfl | h'
      · exact List.mem_cons_self _ _
      · exact List.mem_cons_of_mem p (ih _ h')

/-- The keys surviving `uniqGo` are exactly the input keys not already
seen. -/
theorem uniqGo_key_mem (seen : List String) (l : List Package) (k : String) :
    k ∈ (uniqGo seen l).map Package.importPath
      ↔ (k ∉ seen ∧ k ∈ l.map Package.importPath) := by
  induction l generalizing seen with
  | nil => simp [uniqGo]
  | cons p ps ih =>
    simp only [uniqGo]
    by_cases hp : p.importPath ∈ seen
    · rw [if_pos hp, ih]
      simp only [List.map_cons, List.mem_cons]
      constructor
      · rintro ⟨h1, h2⟩
        exact ⟨h1, Or.inr h2⟩
      · rintro ⟨h1, h2 | h2⟩
        · exact absurd (h2 ▸ hp) h1
        · exact ⟨h1, h2⟩
    · rw [if_neg hp]
      simp only [List.map_cons, List.mem_cons, ih]
      constructor
      · rintro (rfl | ⟨h1, h2⟩)
        · exact ⟨hp, Or.inl rfl⟩
        · exact ⟨fun hk => h1 (Or.inr hk), Or.inr h2⟩
      · rintro ⟨h1, rfl | h2⟩
        · exact Or.inl rfl
        · by_cases hk : k = p.importPath
          · exact Or.inl hk
          · exact Or.inr ⟨fun hc => hc.elim hk h1, h2⟩

/-- `uniqGo` produces pairwise-distinct keys. -/
theorem uniqGo_key_nodup (seen : List String) (l : List Package) :
    ((uniqGo seen l).map Package.importPath).Nodup := by
  induction l generalizing seen with
  | nil => simp [uniqGo]
  | cons p ps ih =>
    simp only [uniqGo]
    by_cases hp : p.importPath ∈ seen
    · rw [if_pos hp]
      exact ih seen
    · rw [if_neg hp, List.map_cons]
      refine List.nodup_cons.mpr ⟨fun hmem => ?_, ih _⟩
      rw [uniqGo_key_mem] at hmem
      exact hmem.1 (List.mem_cons_self _ _)

/-- `uniqGo` fixes lists whose keys are distinct and unseen. -/
theorem uniqGo_fixed (seen : List String) (l : List Package)
    (h1 : (l.map Package.importPath).Nodup) (h2 : ∀ x ∈ l, x.importPath ∉ seen) :
    uniqGo seen l = l := by
  induction l generalizing seen with
  | nil => rfl
  | cons p ps ih =>
    rw [List.map_cons, List.nodup_cons] at h1
    simp only [uniqGo]
    rw [if_neg (h2 p (List.mem_cons_self _ _))]
    congr 1
    refine ih (p.importPath :: seen) h1.2 (fun x hx hmem => ?_)
    rcases List.mem_cons.mp hmem with heq | hseen
    · exact h1.1 (heq ▸ List.mem_map_of_mem Package.importPath hx)
    · exact h2 x (List.mem_cons_of_mem _ hx) hseen

/-- `uniqGo` drops a list entirely when every key was already seen. -/
theorem uniqGo_all_seen (seen : List String) (l : List Package)
    (h : ∀ e ∈ l, e.importPath ∈ seen) : uniqGo seen l = [] := by
  induction l with
  | nil => rfl
  | cons p ps ih =>
    simp only [uniqGo]
    rw [if_pos (h p (List.mem_cons_self _ _))]
    exact ih (fun e he => h e (List.mem_cons_of_mem _ he))

/-- Appending packages whose keys already occur does not change
`uniqGo`. -/
theorem uniqGo_absorb (l extra : List Package) : ∀ seen : List String,
    (∀ e ∈ extra, e.importPath ∈ seen ∨ e.importPath ∈ l.map Package.importPath) →
    uniqGo seen (l ++ extra) = uniqGo seen l := by
  induction l with
  | nil =>
    intro seen h
    rw [List.nil_append]
    show uniqGo seen extra = uniqGo seen []
    rw [show uniqGo seen [] = [] from rfl]
    refine uniqGo_all_seen seen extra (fun e he => ?_)
    rcases h e he with h1 | h1
    · exact h1
    · simp at h1
  | cons p ps ih =>
    intro seen h
    rw [List.cons_append]
    simp only [uniqGo]
    by_cases hp : p.importPath ∈ seen
    · rw [if_pos hp, if_pos hp]
      refine ih seen (fun e he => ?_)
      rcases h e he with h1 | h1
      · exact Or.inl h1
      · rw [List.map_cons] at h1
        rcases List.mem_cons.mp h1 with heq | hm
        · exact Or.inl (heq ▸ hp)
        · exact Or.inr hm
    · rw [if_neg hp, if_neg hp]
      congr 1
      refine ih _ (fun e he => ?_)
      rcases h e he with h1 | h1
      · exact Or.inl (List.mem_cons_of_mem _ h1)
      · rw [List.map_cons] at h1
        rcases List.mem_cons.mp h1 with heq | hm
        · exact Or.inl (heq ▸ List.mem_cons_self _ _)
        · exact Or.inr hm

/-- One step of `depsRun` on a failing lookup. -/
theorem depsRun_cons_err (O : Package → Except String (List Package))
    (acc : List Package) (p : Package) (ps : List Package) (e : String)
    (h : O p = .error e) :
    depsRun O acc (p :: ps) = ([(acc, p.importPath)], .error e) := by
  simp [depsRun, h]

/-- One step of `depsRun` on a successful lookup. -/
theorem depsRun_cons_ok (O : Package → Except String (List Package))
    (acc : List Package) (p : Package) (ps : List Package) (ds : List Package)
    (h : O p = .ok ds) :
    depsRun O acc (p :: ps)
      = ((acc, p.importPath) :: (depsRun O (acc ++ ds) ps).1, (depsRun O (acc ++ ds) ps).2) := by
  simp [depsRun, h]

/-- The import paths queried do not depend on the accumulator. -/
theorem depsRun_log_acc (O : Package → Except String (List Package)) :
    ∀ (ps acc₁ acc₂ : List Package),
      (depsRun O acc₁ ps).1.map Prod.snd = (depsRun O acc₂ ps).1.map Prod.snd := by
  intro ps
  induction ps with
  | nil => intro _ _; rfl
  | cons p ps ih =>
    intro acc₁ acc₂
    cases hO : O p with
    | error e =>
      rw [depsRun_cons_err O acc₁ p ps e hO, depsRun_cons_err O acc₂ p ps e hO]
      rfl
    | ok ds =>
      rw [depsRun_cons_ok O acc₁ p ps ds hO, depsRun_cons_ok O acc₂ p ps ds hO]
      show p.importPath :: _ = p.importPath :: _
      rw [ih (acc₁ ++ ds) (acc₂ ++ ds)]

/-- The queried import paths are an in-order leading segment of the
input's import paths. -/
theorem depsRun_log_lead (O : Package → Except String (List Package)) :
    ∀ (ps acc : List Package),
      (depsRun O acc ps).1.map Prod.snd <+: ps.map Package.importPath := by
  intro ps
  induction ps with
  | nil => intro acc; exact ⟨[], rfl⟩
  | cons p ps ih =>
    intro acc
    cases hO : O p with
    | error e =>
      rw [depsRun_cons_err O acc p ps e hO]
      exact ⟨ps.map Package.importPath, rfl⟩
    | ok ds =>
      rw [depsRun_cons_ok O acc p ps ds hO]
      rcases ih (acc ++ ds) with ⟨t, ht⟩
      exact ⟨t, by simp only [List.map_cons, List.cons_append]; rw [ht]⟩

/-- A successful run means every input package resolved. -/
theorem depsRun_ok_all (O : Package → Except String (List Package)) :
    ∀ (ps acc r : List Package), (depsRun O acc ps).2 = .ok r →
      ∀ p ∈ ps, ∃ ds, O p = .ok ds := by
  intro ps
  induction ps with
  | nil => intro acc r _ p hp; exact absurd hp (List.not_mem_nil p)
  | cons p ps ih =>
    intro acc r h q hq
    cases hO : O p with
    | error e =>
      rw [depsRun_cons_err O acc p ps e hO] at h
      exact absurd h (by simp)
    | ok ds =>
      rw [depsRun_cons_ok O acc p ps ds hO] at h
      rcases List.mem_cons.mp hq with rfl | hq'
      · exact ⟨ds, hO⟩
      · exact ih (acc ++ ds) r h q hq'

/-- When every lookup succeeds, `depsRun` returns the accumulator plus the
concatenated dependency lists. -/
theorem depsRun_ok_val (O : Package → Except String (List Package)) :
    ∀ (ps acc : List Package), (∀ p ∈ ps, ∃ ds, O p = .ok ds) →
      (depsRun O acc ps).2 = .ok (acc ++ allDeps O ps) := by
  intro ps
  induction ps with
  | nil => intro acc _; simp [depsRun, allDeps]
  | cons p ps ih =>
    intro acc h
    rcases h p (List.mem_cons_self _ _) with ⟨ds, hO⟩
    rw [depsRun_cons_ok O acc p ps ds hO]
    show (depsRun O (acc ++ ds) ps).2 = _
    rw [ih (acc ++ ds) (fun q hq => h q (List.mem_cons_of_mem _ hq))]
    rw [allDeps_cons]
    rw [show odeps O p = ds from by unfold odeps; rw [hO]]
    rw [List.append_assoc]

/-- On success the query log is exactly the input's import paths in
order. -/
theorem depsRun_log_ok (O : Package → Except String (List Package)) :
    ∀ (ps acc r : List Package), (depsRun O acc ps).2 = .ok r →
      (depsRun O acc ps).1.map Prod.snd = ps.map Package.importPath := by
  intro ps
  induction ps with
  | nil => intro _ _ _; rfl
  | cons p ps ih =>
    intro acc r h
    cases hO : O p with
    | error e =>
      rw [depsRun_cons_err O acc p ps e hO] at h
      exact absurd h (by simp)
    | ok ds =>
      rw [depsRun_cons_ok O acc p ps ds hO] at h
      rw [depsRun_cons_ok O acc p ps ds hO]
      show p.importPath :: _ = _
      rw [List.map_cons, ih (acc ++ ds) r h]

/-- C2 is refuted on the code: with roots `a` and `b` where `a`'s
transitive dependency set contains `b`, the expander makes a
dependency-lookup call for import path `b` while `b` is already present
in the accumulating union. -/
theorem requery_counterexample : ¬ noRequery provider0 [pkgA, pkgB] := by
  intro h
  have hmem : ([pkgB], "b") ∈ (depsRun provider0 [] [pkgA, pkgB]).1 := by
    rw [show (depsRun provider0 [] [pkgA, pkgB]).1 = [([], "a"), ([pkgB], "b")] from rfl]
    simp
  exact h ([pkgB], "b") hmem (by simp [pkgB])

/-- C2 (amended): the expander makes exactly one dependency-lookup call
per package of the input set, in input order — the query log is an
in-order leading segment of the input's import paths, equal to it when
expansion succeeds — even when the queried import path is already present
in the accumulating union; and deduplication of the outer union is by
value equality on import path: the result's import paths are
pairwise-distinct and include every input's import path. -/
theorem importDeps_queries (O : Package → Except String (List Package))
    (ps out : List Package) :
    (depsRun O [] ps).1.map Prod.snd <+: ps.map Package.importPath
    ∧ (importDeps O ps = .ok out →
        (depsRun O [] ps).1.map Prod.snd = ps.map Package.importPath
        ∧ (out.map Package.importPath).Nodup
        ∧ ∀ p ∈ ps, p.importPath ∈ out.map Package.importPath) := by
  refine ⟨depsRun_log_lead O ps [], fun h => ?_⟩
  unfold importDeps at h
  cases hr : (depsRun O [] ps).2 with
  | error e => rw [hr] at h; exact absurd h (by simp)
  | ok deps =>
    rw [hr] at h
    have hout := Except.ok.inj h
    refine ⟨depsRun_log_ok O ps [] deps hr, ?_, fun p hp => ?_⟩
    · rw [← hout]
      exact uniqGo_key_nodup [] (ps ++ deps)
    · rw [← hout]
      unfold uniqPackages
      rw [uniqGo_key_mem]
      exact ⟨List.not_mem_nil _, List.mem_map_of_mem _ (List.mem_append_left _ hp)⟩

/-- Witness for the amended C2 on the concrete provider. -/
theorem importDeps_queries_witness :
    (depsRun provider0 [] [pkgA, pkgB]).1.map Prod.snd = [pkgA, pkgB].map Package.importPath
    ∧ ([pkgA, pkgB].map Package.importPath).Nodup := by
  have h := (importDeps_queries provider0 [pkgA, pkgB] [pkgA, pkgB]).2 rfl
  exact ⟨h.1, h.2.1⟩

/-- C8: Closure expansion is idempotent: for every Package Set, expanding
the result of expanding it (under the spec's provider contract, which
says the external call performs deep transitive resolution) yields the
same Package Set — no growth on the second expansion. -/
theorem importDeps_idem (O : Package → Except String (List Package)) (ps S : List Package)
    (h1 : importDeps O ps = .ok S) (h2 : ProviderTransitive O) :
    importDeps O S = .ok S := by
  unfold importDeps at h1
  cases hr : (depsRun O [] ps).2 with
  | error e => rw [hr] at h1; exact absurd h1 (by simp)
  | ok deps =>
    rw [hr] at h1
    have hS := Except.ok.inj h1
    have hok : ∀ p ∈ ps, ∃ ds, O p = .ok ds := depsRun_ok_all O ps [] deps hr
    have hdeps : deps = allDeps O ps := by
      have hv := depsRun_ok_val O ps [] hok
      rw [hr] at hv
      simpa using Except.ok.inj hv
    have hS2 : ∀ q ∈ S, ∃ es, O q = .ok es
        ∧ ∀ e ∈ es, e.importPath ∈ deps.map Package.importPath := by
      intro q hq
      rw [← hS] at hq
      have hq' : q ∈ ps ++ deps := uniqGo_mem [] (ps ++ deps) q hq
      rcases List.mem_append.mp hq' with hqp | hqd
      · rcases hok q hqp with ⟨ds, hO⟩
        refine ⟨ds, hO, fun e he => ?_⟩
        have hall : e ∈ allDeps O ps :=
          (allDeps_mem O ps e).mpr ⟨q, hqp, by unfold odeps; rw [hO]; exact he⟩
        rw [hdeps]
        exact List.mem_map_of_mem _ hall
      · rw [hdeps] at hqd
        rcases (allDeps_mem O ps q).mp hqd with ⟨p, hp, hqod⟩
        rcases hok p hp with ⟨dsp, hOp⟩
        have hqds : q ∈ dsp := by
          unfold odeps at hqod
          rwa [hOp] at hqod
        rcases h2 p dsp hOp q hqds with ⟨es, hOq, hkeys⟩
        refine ⟨es, hOq, fun e he => ?_⟩
        rcases List.mem_map.mp (hkeys e he) with ⟨x, hx, hxe⟩
        have hxall : x ∈ allDeps O ps :=
          (allDeps_mem O ps x).mpr ⟨p, hp, by unfold odeps; rw [hOp]; exact hx⟩
        rw [hdeps, ← hxe]
        exact List.mem_map_of_mem _ hxall
    have hok2 : ∀ q ∈ S, ∃ es, O q = .ok es := fun q hq => (hS2 q hq).imp (fun _ h => h.1)
    unfold importDeps
    rw [depsRun_ok_val O S [] hok2]
    show Except.ok (uniqPackages (S ++ ([] ++ allDeps O S))) = Except.ok S
    rw [List.nil_append]
    have hcover : ∀ e ∈ allDeps O S, e.importPath ∈ S.map Package.importPath := by
      intro e he
      rcases (allDeps_mem O S e).mp he with ⟨q, hq, heod⟩
      rcases hS2 q hq with ⟨es, hOq, hkeys⟩
      have heq : e ∈ es := by
        unfold odeps at heod
        rwa [hOq] at heod
      have hkd : e.importPath ∈ (ps ++ deps).map Package.importPath := by
        rw [List.map_append]
        exact List.mem_append_right _ (hkeys e heq)
      rw [← hS]
      unfold uniqPackages
      rw [uniqGo_key_mem]
      exact ⟨List.not_mem_nil _, hkd⟩
    have hnodup : (S.map Package.importPath).Nodup := by
      rw [← hS]
      exact uniqGo_key_nodup [] (ps ++ deps)
    unfold uniqPackages
    rw [uniqGo_absorb S (allDeps O S) [] (fun e he => Or.inr (hcover e he))]
    rw [uniqGo_fixed [] S hnodup (fun x _ => List.not_mem_nil _)]

/-- Witness for C8: a second expansion of the expanded concrete set is a
fixed point. -/
theorem importDeps_idem_witness : importDeps provider0 [pkgA, pkgB] = .ok [pkgA, pkgB] := by
  refine importDeps_idem provider0 [pkgA] [pkgA, pkgB] rfl ?_
  intro a ds h q hq
  have hds := Except.ok.inj h
  by_cases ha : a.importPath = "a"
  · rw [if_pos ha] at hds
    rw [← hds] at hq
    rcases List.mem_cons.mp hq with rfl | hq'
    · exact ⟨[], by simp [provider0, pkgB], by simp⟩
    · exact absurd hq' (List.not_mem_nil q)
  · rw [if_neg ha] at hds
    rw [← hds] at hq
    exact absurd hq (List.not_mem_nil q)

end Gather
